import Mathlib

/-!
Verification of the scrape-and-record batch CLI (`src/main.rs`).

The development embeds the pure logic of the program: the line loader
(`read_lines(..).map_while(Result::ok).collect()`), the paragraph field
extractor (`extract_value`, the label chain of `get_authorization_details`),
and the per-identifier main loop with its CSV rows, modelled as a run over
a list of per-identifier browser outcomes.  Browser effects (navigation,
refresh, DOM queries, text reads) are modelled by an explicit outcome value
per identifier; everything downstream of those outcomes is translated
directly from the source.
-/

namespace Scraper

/-- Model of Rust `str::trim` on the character list of a string: drop
whitespace from both ends. -/
def trimL (l : List Char) : List Char :=
  ((l.dropWhile Char.isWhitespace).reverse.dropWhile Char.isWhitespace).reverse

/-- Leftmost-occurrence finder underlying Rust string pattern matching:
`findSplit sep l = some (b, a)` when `l = b ++ sep ++ a` and this is the
leftmost occurrence of `sep`; `none` when `sep` does not occur.  The
separators used by the program are the six nonempty label literals, so the
empty-separator guard never fires. -/
def findSplit (sep : List Char) : List Char → Option (List Char × List Char)
  | [] => none
  | c :: rest =>
    if sep.isEmpty then none
    else if sep.isPrefixOf (c :: rest) then some ([], (c :: rest).drop sep.length)
    else match findSplit sep rest with
      | some (b, a) => some (c :: b, a)
      | none => none

/-- Fueled splitter; with fuel above the text length it computes Rust
`str::split`: the segments of `l` between consecutive leftmost occurrences
of `sep`. -/
def splitGo : Nat → List Char → List Char → List (List Char)
  | 0, _, l => [l]
  | Nat.succ n, sep, l =>
    match findSplit sep l with
    | none => [l]
    | some (b, a) => b :: splitGo n sep a

/-- Model of Rust `text.split(sep)` collected to a list of segments. -/
def splitOnL (sep l : List Char) : List (List Char) :=
  splitGo (l.length + 1) sep l

/-- Model of Rust `text.contains(pat)` (main.rs lines 107-117). -/
def rcontains (text pat : String) : Bool :=
  (findSplit pat.toList text.toList).isSome

/-- Embedding of the closure `extract_value` (main.rs lines 93-99):
`text.split(lbl).nth(1).map(str::trim).filter(|s| !s.is_empty()).map(String::from)`. -/
def extract_value (text lbl : String) : Option String :=
  ((((splitOnL lbl.toList text.toList).get? 1).map trimL).filter
    (fun s => !s.isEmpty)).map List.asString

/-- Embedding of the struct `AuthorizationDetails` (main.rs lines 52-61). -/
structure AuthorizationDetails where
  id : String
  fedramp_ready : Option String
  authorizing_entity_review : Option String
  pmo_review : Option String
  fedramp_authorized : Option String
  annual_assessment : Option String
  independent_assessor : Option String
deriving DecidableEq, Repr

/-- The freshly initialized record of main.rs lines 83-91: all fields absent. -/
def emptyDetails (id : String) : AuthorizationDetails :=
  { id := id
    fedramp_ready := none
    authorizing_entity_review := none
    pmo_review := none
    fedramp_authorized := none
    annual_assessment := none
    independent_assessor := none }

/-- Embedding of the if/else-if label chain applied to one paragraph text
(main.rs lines 107-119). -/
def applyParagraph (d : AuthorizationDetails) (text : String) : AuthorizationDetails :=
  if rcontains text "Independent Assessor:" then
    { d with independent_assessor := extract_value text "Independent Assessor:" }
  else if rcontains text "FedRAMP Ready:" then
    { d with fedramp_ready := extract_value text "FedRAMP Ready:" }
  else if rcontains text "Authorizing Entity Review:" then
    { d with authorizing_entity_review := extract_value text "Authorizing Entity Review:" }
  else if rcontains text "PMO Review:" then
    { d with pmo_review := extract_value text "PMO Review:" }
  else if rcontains text "FedRAMP Authorized:" then
    { d with fedramp_authorized := extract_value text "FedRAMP Authorized:" }
  else if rcontains text "Annual Assessment:" then
    { d with annual_assessment := extract_value text "Annual Assessment:" }
  else d

/-- The six labelled fields, in the priority order of the chain. -/
inductive FieldLabel where
  | ia | fr | aer | pmo | fa | aa
deriving DecidableEq, Repr

/-- The literal label text tested for each field. -/
def labelText : FieldLabel → String
  | .ia => "Independent Assessor:"
  | .fr => "FedRAMP Ready:"
  | .aer => "Authorizing Entity Review:"
  | .pmo => "PMO Review:"
  | .fa => "FedRAMP Authorized:"
  | .aa => "Annual Assessment:"

/-- Write one labelled field of the record, leaving the rest untouched. -/
def setField : FieldLabel → Option String → AuthorizationDetails → AuthorizationDetails
  | .ia, v, d => { d with independent_assessor := v }
  | .fr, v, d => { d with fedramp_ready := v }
  | .aer, v, d => { d with authorizing_entity_review := v }
  | .pmo, v, d => { d with pmo_review := v }
  | .fa, v, d => { d with fedramp_authorized := v }
  | .aa, v, d => { d with annual_assessment := v }

/-- Read one labelled field of the record. -/
def getField : FieldLabel → AuthorizationDetails → Option String
  | .ia, d => d.independent_assessor
  | .fr, d => d.fedramp_ready
  | .aer, d => d.authorizing_entity_review
  | .pmo, d => d.pmo_review
  | .fa, d => d.fedramp_authorized
  | .aa, d => d.annual_assessment

/-- The first label, in chain order, whose text occurs in the paragraph. -/
def firstMatch (text : String) : Option FieldLabel :=
  if rcontains text "Independent Assessor:" then some .ia
  else if rcontains text "FedRAMP Ready:" then some .fr
  else if rcontains text "Authorizing Entity Review:" then some .aer
  else if rcontains text "PMO Review:" then some .pmo
  else if rcontains text "FedRAMP Authorized:" then some .fa
  else if rcontains text "Annual Assessment:" then some .aa
  else none

/-- The paragraph loop of main.rs lines 101-120: each paragraph whose text
read failed (`Err(_) => continue`) is skipped, each readable text is run
through the label chain. -/
def processParas (d : AuthorizationDetails) (paras : List (Option String)) :
    AuthorizationDetails :=
  paras.foldl
    (fun d op =>
      match op with
      | none => d
      | some t => applyParagraph d t)
    d

/-- State of the page after navigation and refresh, as seen by the
extraction routine: either the XPath query for the heading container fails,
or it yields a container whose paragraph elements each produce a text or an
individual read failure. -/
inductive PageState where
  | noContainer
  | container (paras : List (Option String))
deriving DecidableEq, Repr

/-- Embedding of `get_authorization_details` (main.rs lines 67-123): a
failing container query propagates as an error, an empty paragraph list is
the error "No paragraphs found", otherwise the record built by the
paragraph loop is returned. -/
def get_authorization_details (id : String) : PageState → Except String AuthorizationDetails
  | .noContainer => .error "no such element: Authorization Details container"
  | .container paras =>
    if paras.isEmpty then .error "No paragraphs found"
    else .ok (processParas (emptyDetails id) paras)

/-- The success row written at main.rs lines 159-167: the identifier and
the six fields, absent fields rendered as the empty string, in the fixed
column order. -/
def recordRow (d : AuthorizationDetails) : List String :=
  [d.id,
   d.fedramp_ready.getD "",
   d.authorizing_entity_review.getD "",
   d.pmo_review.getD "",
   d.fedramp_authorized.getD "",
   d.annual_assessment.getD "",
   d.independent_assessor.getD ""]

/-- Outcome of the browser interaction for one identifier: the initial
navigation fails, the forced refresh fails, or the page loads into a
`PageState`. -/
inductive Outcome where
  | navFailed
  | refreshFailed
  | loaded (st : PageState)
deriving DecidableEq, Repr

/-- The row the loop body writes for one identifier, for the outcomes the
loop handles without aborting (main.rs lines 149-174).  The value at
`refreshFailed` is a placeholder: the source aborts there instead of
writing a row. -/
def rowFor (id : String) : Outcome → List String
  | .navFailed => [id, "Error - Navigation failed", "", "", "", "", ""]
  | .refreshFailed => []
  | .loaded st =>
    match get_authorization_details id st with
    | .ok d => recordRow d
    | .error e => [id, "Error: " ++ e, "", "", "", "", ""]

/-- Embedding of the main loop (main.rs lines 146-176) over the list of
identifiers paired with their browser outcomes.  Returns the data rows
written, in order, and whether the loop ran to completion: a failing
`driver.refresh().await?` propagates out of `main`, so it stops the loop
with no row for the current identifier and none for any later one. -/
def processIds : List (String × Outcome) → List (List String) × Bool
  | [] => ([], true)
  | (id, o) :: rest =>
    match o with
    | .refreshFailed => ([], false)
    | o =>
      let p := processIds rest
      (rowFor id o :: p.1, p.2)

/-- The header row written once before the loop (main.rs lines 136-144). -/
def headerRow : List String :=
  ["ID", "FedRAMP Ready", "Authorizing Entity Review", "PMO Review",
   "FedRAMP Authorized", "Annual Assessment", "Independent Assessor"]

/-- Observable output events of a run that got past startup: the header
record, each data record, and the closing of the browser window. -/
inductive Event where
  | header (cols : List String)
  | row (cols : List String)
  | closed
deriving DecidableEq, Repr

/-- Whether an event is the writing of the header record. -/
def isHeaderEv : Event → Bool
  | Event.header _ => true
  | _ => false

/-- Trace of one run past startup: the header first, then the data rows in
loop order, then — only if the loop was not aborted by a refresh failure —
the single `driver.close_window()` call (main.rs line 178). -/
def runTrace (inputs : List (String × Outcome)) : List Event :=
  Event.header headerRow ::
    ((processIds inputs).1.map Event.row ++
      if (processIds inputs).2 then [Event.closed] else [])

/-- Embedding of `read_lines(&args.input)?.map_while(Result::ok).collect()`
(main.rs line 132): the file is a list of per-line read results, and
`map_while` keeps lines while they read successfully, stopping at the first
failing line. -/
def mapWhileOk : List (Except String String) → List String
  | [] => []
  | Except.ok s :: rest => s :: mapWhileOk rest
  | Except.error _ :: _ => []

theorem findSplit_decomp (sep : List Char) :
    ∀ l b a, findSplit sep l = some (b, a) → l = b ++ sep ++ a := by
  intro l
  induction l with
  | nil => intro b a h; simp [findSplit] at h
  | cons c rest ih =>
    intro b a h
    by_cases hsep : sep.isEmpty
    · simp [findSplit, hsep] at h
    · by_cases hpre : sep.isPrefixOf (c :: rest)
      · simp [findSplit, hsep, hpre] at h
        obtain ⟨hb, ha⟩ := h
        obtain ⟨t, ht⟩ := List.isPrefixOf_iff_prefix.mp hpre
        subst hb
        subst ha
        rw [← ht]
        simp
      · simp [findSplit, hsep, hpre] at h
        match hfs : findSplit sep rest with
        | none => rw [hfs] at h; simp at h
        | some (b', a') =>
          rw [hfs] at h
          simp at h
          obtain ⟨hb, ha⟩ := h
          subst hb; subst ha
          have := ih b' a' hfs
          simp [this]

theorem findSplit_isSome_of_append (sep : List Char) (hsep : sep ≠ []) :
    ∀ x y, (findSplit sep (x ++ sep ++ y)).isSome := by
  intro x
  induction x with
  | nil =>
    intro y
    match sep, hsep with
    | s :: srest, _ =>
      have hpre : (s :: srest).isPrefixOf ((s :: srest) ++ y) :=
        List.isPrefixOf_iff_prefix.mpr ⟨y, rfl⟩
      simp only [List.nil_append]
      rw [show (s :: srest) ++ y = s :: (srest ++ y) by simp]
      simp [findSplit, hpre]
  | cons c x ih =>
    intro y
    rw [show (c :: x) ++ sep ++ y = c :: (x ++ (sep ++ y)) by simp]
    rw [findSplit]
    simp only [List.isEmpty_iff, hsep, if_false]
    have ih' : (findSplit sep (x ++ (sep ++ y))).isSome := by
      have := ih y
      simpa [List.append_assoc] using this
    by_cases hpre : sep <+: c :: (x ++ (sep ++ y))
    · simp [hpre]
    · simp only [List.isPrefixOf_iff_prefix, hpre, if_false]
      match hfs : findSplit sep (x ++ (sep ++ y)) with
      | some (b, a) => simp
      | none => rw [hfs] at ih'; simp at ih'

theorem applyParagraph_firstMatch (d : AuthorizationDetails) (text : String) :
    applyParagraph d text =
      match firstMatch text with
      | none => d
      | some l => setField l (extract_value text (labelText l)) d := by
  unfold applyParagraph firstMatch
  by_cases h1 : rcontains text "Independent Assessor:" = true
  · simp [h1, setField, labelText]
  · simp only [h1]
    by_cases h2 : rcontains text "FedRAMP Ready:" = true
    · simp [h1, h2, setField, labelText]
    · simp only [h2]
      by_cases h3 : rcontains text "Authorizing Entity Review:" = true
      · simp [h1, h2, h3, setField, labelText]
      · simp only [h3]
        by_cases h4 : rcontains text "PMO Review:" = true
        · simp [h1, h2, h3, h4, setField, labelText]
        · simp only [h4]
          by_cases h5 : rcontains text "FedRAMP Authorized:" = true
          · simp [h1, h2, h3, h4, h5, setField, labelText]
          · simp only [h5]
            by_cases h6 : rcontains text "Annual Assessment:" = true
            · simp [h1, h2, h3, h4, h5, h6, setField, labelText]
            · simp [h1, h2, h3, h4, h5, h6]

theorem getField_setField_same (l : FieldLabel) (v : Option String)
    (d : AuthorizationDetails) : getField l (setField l v d) = v := by
  cases l <;> simp [getField, setField]

theorem getField_setField_ne (l l' : FieldLabel) (v : Option String)
    (d : AuthorizationDetails) (h : l ≠ l') :
    getField l (setField l' v d) = getField l d := by
  cases l <;> cases l' <;> simp_all [getField, setField]

theorem processParas_append (d : AuthorizationDetails)
    (xs ys : List (Option String)) :
    processParas d (xs ++ ys) = processParas (processParas d xs) ys := by
  simp [processParas, List.foldl_append]

theorem getField_applyParagraph_no_match (l : FieldLabel)
    (d : AuthorizationDetails) (t : String) (h : firstMatch t ≠ some l) :
    getField l (applyParagraph d t) = getField l d := by
  rw [applyParagraph_firstMatch]
  match hfm : firstMatch t with
  | none => simp
  | some l' =>
    have hne : l ≠ l' := by
      intro he
      subst he
      exact h hfm
    simp only []
    exact getField_setField_ne l l' _ d hne

theorem getField_processParas_no_match (l : FieldLabel) :
    ∀ (paras : List (Option String)) (d : AuthorizationDetails),
      (∀ s, some s ∈ paras → firstMatch s ≠ some l) →
      getField l (processParas d paras) = getField l d := by
  intro paras
  induction paras with
  | nil => intro d _; simp [processParas]
  | cons u rest ih =>
    intro d h
    match u with
    | none =>
      have he : processParas d (none :: rest) = processParas d rest := rfl
      rw [he]
      exact ih d (fun s hs => h s (by simp [hs]))
    | some t =>
      have he : processParas d (some t :: rest) = processParas (applyParagraph d t) rest := rfl
      rw [he]
      rw [ih (applyParagraph d t) (fun s hs => h s (by simp [hs]))]
      exact getField_applyParagraph_no_match l d t (h t (by simp))

theorem setField_id (l : FieldLabel) (v : Option String) (d : AuthorizationDetails) :
    (setField l v d).id = d.id := by
  cases l <;> rfl

theorem applyParagraph_id (d : AuthorizationDetails) (t : String) :
    (applyParagraph d t).id = d.id := by
  rw [applyParagraph_firstMatch]
  match firstMatch t with
  | none => rfl
  | some l => exact setField_id l _ d

theorem processParas_id :
    ∀ (paras : List (Option String)) (d : AuthorizationDetails),
      (processParas d paras).id = d.id := by
  intro paras
  induction paras with
  | nil => intro d; rfl
  | cons u rest ih =>
    intro d
    match u with
    | none => exact ih d
    | some t =>
      have he : processParas d (some t :: rest) = processParas (applyParagraph d t) rest := rfl
      rw [he, ih (applyParagraph d t), applyParagraph_id]

theorem rowFor_head (id : String) (o : Outcome) (h : o ≠ Outcome.refreshFailed) :
    (rowFor id o).head? = some id := by
  match o, h with
  | Outcome.navFailed, _ => rfl
  | Outcome.loaded st, _ =>
    match st with
    | PageState.noContainer => rfl
    | PageState.container paras =>
      by_cases hp : paras.isEmpty
      · simp [rowFor, get_authorization_details, hp]
      · simp [rowFor, get_authorization_details, hp, recordRow, processParas_id, emptyDetails]

theorem processIds_no_refresh :
    ∀ inputs : List (String × Outcome),
      (∀ p ∈ inputs, p.2 ≠ Outcome.refreshFailed) →
      processIds inputs = (inputs.map (fun p => rowFor p.1 p.2), true) := by
  intro inputs
  induction inputs with
  | nil => intro _; rfl
  | cons p rest ih =>
    intro h
    obtain ⟨id, o⟩ := p
    have ho : o ≠ Outcome.refreshFailed := h (id, o) (by simp)
    have hrest := ih (fun q hq => h q (by simp [hq]))
    match o, ho with
    | Outcome.navFailed, _ =>
      simp [processIds, hrest]
    | Outcome.loaded st, _ =>
      simp [processIds, hrest]

theorem processIds_completed_iff :
    ∀ inputs : List (String × Outcome),
      (processIds inputs).2 = true ↔ ∀ p ∈ inputs, p.2 ≠ Outcome.refreshFailed := by
  intro inputs
  induction inputs with
  | nil => simp [processIds]
  | cons p rest ih =>
    obtain ⟨id, o⟩ := p
    match o with
    | Outcome.navFailed => simpa [processIds] using ih
    | Outcome.refreshFailed => simp [processIds]
    | Outcome.loaded st => simpa [processIds] using ih

theorem rowFor_length (id : String) (o : Outcome)
    (h : o ≠ Outcome.refreshFailed) : (rowFor id o).length = 7 := by
  match o, h with
  | Outcome.navFailed, _ => rfl
  | Outcome.loaded st, _ =>
    match st with
    | PageState.noContainer => rfl
    | PageState.container paras =>
      by_cases hp : paras.isEmpty
      · simp [rowFor, get_authorization_details, hp]
      · simp [rowFor, get_authorization_details, hp, recordRow]

theorem processIds_row_length :
    ∀ inputs : List (String × Outcome), ∀ r ∈ (processIds inputs).1, r.length = 7 := by
  intro inputs
  induction inputs with
  | nil => intro r hr; simp [processIds] at hr
  | cons p rest ih =>
    obtain ⟨id, o⟩ := p
    intro r hr
    match o with
    | Outcome.refreshFailed => simp [processIds] at hr
    | Outcome.navFailed =>
      simp only [processIds] at hr
      rcases List.mem_cons.mp hr with h | h
      · subst h; exact rowFor_length id _ (by simp)
      · exact ih r h
    | Outcome.loaded st =>
      simp only [processIds] at hr
      rcases List.mem_cons.mp hr with h | h
      · subst h; exact rowFor_length id _ (by simp)
      · exact ih r h

theorem findSplit_length (sep : List Char) :
    ∀ l b a, findSplit sep l = some (b, a) → a.length < l.length := by
  intro l
  induction l with
  | nil => intro b a h; simp [findSplit] at h
  | cons c rest ih =>
    intro b a h
    by_cases hsep : sep.isEmpty
    · simp [findSplit, hsep] at h
    · by_cases hpre : sep.isPrefixOf (c :: rest)
      · simp [findSplit, hsep, hpre] at h
        obtain ⟨hb, ha⟩ := h
        have hslen : 1 ≤ sep.length := by
          cases sep with
          | nil => simp at hsep
          | cons s srest => simp
        subst ha
        simp only [List.length_drop, List.length_cons]
        omega
      · simp [findSplit, hsep, hpre] at h
        match hfs : findSplit sep rest with
        | none => rw [hfs] at h; simp at h
        | some (b', a') =>
          rw [hfs] at h
          simp at h
          obtain ⟨hb, ha⟩ := h
          subst ha
          have := ih b' a' hfs
          simp only [List.length_cons]
          omega

/-- Characterization of the second segment of the split: it is the text
between the first occurrence of the separator and the next occurrence after
it (or everything after the first occurrence when there is no second one),
and it is absent when the separator does not occur at all. -/
theorem splitOnL_get1 (sep l : List Char) :
    (splitOnL sep l).get? 1 =
      match findSplit sep l with
      | none => none
      | some (_, a) =>
        match findSplit sep a with
        | none => some a
        | some (b, _) => some b := by
  match hfs : findSplit sep l with
  | none => simp [splitOnL, splitGo, hfs]
  | some (b, a) =>
    have hlt : a.length < l.length := findSplit_length sep l b a hfs
    obtain ⟨m, hm⟩ : ∃ m, l.length = m + 1 := ⟨l.length - 1, by omega⟩
    simp only [splitOnL, hm]
    rw [splitGo]
    rw [hfs]
    simp only [List.get?_cons_succ]
    match m, hm with
    | 0, hm =>
      have ha : a = [] := by
        rw [hm] at hlt
        exact List.length_eq_zero.mp (by omega)
      subst ha
      simp [splitGo, findSplit]
    | Nat.succ k, hm =>
      rw [splitGo]
      match hfs2 : findSplit sep a with
      | none => simp
      | some (b', a') => simp

/-- Claim C2 counterexample: with the file reading as line results
ok "a", error, ok "b", the loader keeps only "a" — the readable line "b"
after the bad line is NOT retained, contradicting the claim that a single
bad line removes only itself and never subsequent good lines. -/
theorem c2_counterexample :
    mapWhileOk [Except.ok "a", Except.error "bad", Except.ok "b"] = ["a"] ∧
    "b" ∉ mapWhileOk [Except.ok "a", Except.error "bad", Except.ok "b"] := by
  decide

/-- Claim C2 amended: the loader keeps the readable lines only up to the
first unreadable line: when every line reads successfully the whole ordered
sequence is produced, and a bad line drops itself and every line after it
(the batch itself does not fail). -/
theorem c2_amended (good : List String) (e : String)
    (rest : List (Except String String)) :
    mapWhileOk (good.map Except.ok) = good ∧
    mapWhileOk (good.map Except.ok ++ Except.error e :: rest) = good := by
  constructor
  · induction good with
    | nil => rfl
    | cons s gs ih => simpa [mapWhileOk] using ih
  · induction good with
    | nil => rfl
    | cons s gs ih => simpa [mapWhileOk] using ih

/-- Claim C3 counterexample: for the paragraph text
"Independent Assessor: A Independent Assessor: B", everything after the
first occurrence of the label, trimmed, is "A Independent Assessor: B",
but the stored field value is some "A" — the segment between the first and
second occurrences. -/
theorem c3_counterexample :
    getField FieldLabel.ia
        (applyParagraph (emptyDetails "P")
          "Independent Assessor: A Independent Assessor: B")
      ≠ some "A Independent Assessor: B" := by
  decide

/-- Claim C3 amended: the stored value is the text strictly between the
first occurrence of the matched label and the next occurrence after it
(trimmed); only when the label occurs exactly once is it everything after
the first occurrence.  For "Independent Assessor: Acme Corp" the stored
value is exactly "Acme Corp"; for a text with two occurrences the part
after the second occurrence is dropped. -/
theorem c3_amended :
    (∀ text lbl : String,
      extract_value text lbl =
        match findSplit lbl.toList text.toList with
        | none => none
        | some (_, rest) =>
          match findSplit lbl.toList rest with
          | none => if (trimL rest).isEmpty then none else some (trimL rest).asString
          | some (b, _) => if (trimL b).isEmpty then none else some (trimL b).asString) ∧
    extract_value "Independent Assessor: Acme Corp" "Independent Assessor:"
      = some "Acme Corp" ∧
    getField FieldLabel.ia
        (applyParagraph (emptyDetails "P")
          "Independent Assessor: A Independent Assessor: B")
      = some "A" := by
  refine ⟨?_, by decide, by decide⟩
  intro text lbl
  rw [extract_value, splitOnL_get1]
  match hfs : findSplit lbl.toList text.toList with
  | none => simp
  | some (b, a) =>
    match hfs2 : findSplit lbl.toList a with
    | none =>
      simp only [Option.map_some, Option.filter]
      rw [hfs2]
      by_cases h : (trimL a).isEmpty <;> simp [h]
    | some (b', a') =>
      simp only [Option.map_some, Option.filter]
      rw [hfs2]
      by_cases h : (trimL b').isEmpty <;> simp [h]

/-- Claim C5: label tests happen in the exact chain order Independent
Assessor, FedRAMP Ready, Authorizing Entity Review, PMO Review, FedRAMP
Authorized, Annual Assessment (the order of `firstMatch`); only the field
of the first matching label is written, every other field is untouched,
and a paragraph matching no label leaves the record unchanged. -/
theorem c5_label_priority (d : AuthorizationDetails) (text : String) :
    (applyParagraph d text =
      match firstMatch text with
      | none => d
      | some l => setField l (extract_value text (labelText l)) d) ∧
    (firstMatch text = none → applyParagraph d text = d) ∧
    (∀ l l', firstMatch text = some l → l' ≠ l →
      getField l' (applyParagraph d text) = getField l' d) := by
  refine ⟨applyParagraph_firstMatch d text, ?_, ?_⟩
  · intro h
    rw [applyParagraph_firstMatch, h]
  · intro l l' h hne
    rw [applyParagraph_firstMatch, h]
    exact getField_setField_ne l' l _ d hne

/-- Claim C5 witness: the paragraph "PMO Review: Done FedRAMP Authorized:
Yes" contains two recognizable labels; PMO Review comes first in the chain,
so the FedRAMP Authorized field is untouched. -/
theorem c5_witness :
    getField FieldLabel.fa
        (applyParagraph (emptyDetails "W") "PMO Review: Done FedRAMP Authorized: Yes")
      = getField FieldLabel.fa (emptyDetails "W") :=
  (c5_label_priority (emptyDetails "W") "PMO Review: Done FedRAMP Authorized: Yes").2.2
    FieldLabel.pmo FieldLabel.fa (by decide) (by decide)

/-- Claim C6: an identifier whose navigation fails produces exactly the row
of the identifier followed by "Error - Navigation failed" and five empty
columns, the loop goes on to the rest unchanged, and for "ABC123" the row
is exactly the one the claim gives. -/
theorem c6_navigation_error_row (id : String) (rest : List (String × Outcome)) :
    (processIds ((id, Outcome.navFailed) :: rest)).1 =
      [id, "Error - Navigation failed", "", "", "", "", ""] :: (processIds rest).1 ∧
    (processIds ((id, Outcome.navFailed) :: rest)).2 = (processIds rest).2 ∧
    (processIds [("ABC123", Outcome.navFailed)]).1 =
      [["ABC123", "Error - Navigation failed", "", "", "", "", ""]] := by
  refine ⟨rfl, rfl, by decide⟩

/-- Claim C7: a paragraph whose text after the matched label trims to the
empty string stores no value: the extracted value is none, the record
update writes none into the matched field, and on a fresh record the
paragraph leaves the record exactly as if no paragraph had matched at all
(so the output column renders as the empty string either way). -/
theorem c7_empty_after_trim (d : AuthorizationDetails) (text : String)
    (l : FieldLabel) (h1 : firstMatch text = some l)
    (h2 : ((splitOnL (labelText l).toList text.toList).get? 1).map trimL = some []) :
    extract_value text (labelText l) = none ∧
    applyParagraph d text = setField l none d ∧
    processParas (emptyDetails d.id) [some text] = processParas (emptyDetails d.id) [] := by
  have hev : extract_value text (labelText l) = none := by
    rw [extract_value]
    match hg : (splitOnL (labelText l).toList text.toList).get? 1 with
    | none => rw [hg] at h2; simp at h2
    | some seg =>
      rw [hg] at h2
      have hseg : trimL seg = [] := by simpa using h2
      simp [hg, hseg, Option.filter]
  refine ⟨hev, ?_, ?_⟩
  · rw [applyParagraph_firstMatch, h1]
    show setField l (extract_value text (labelText l)) d = setField l none d
    rw [hev]
  · have hone : processParas (emptyDetails d.id) [some text]
        = applyParagraph (emptyDetails d.id) text := rfl
    have hnil : processParas (emptyDetails d.id) [] = emptyDetails d.id := rfl
    rw [hone, hnil, applyParagraph_firstMatch, h1]
    show setField l (extract_value text (labelText l)) (emptyDetails d.id) = emptyDetails d.id
    rw [hev]
    cases l <;> simp [setField, emptyDetails]

/-- Claim C7 witness: the paragraph "FedRAMP Ready:    " on a fresh record
for identifier "W". -/
theorem c7_witness :
    extract_value "FedRAMP Ready:    " (labelText FieldLabel.fr) = none ∧
    applyParagraph (emptyDetails "W") "FedRAMP Ready:    "
      = setField FieldLabel.fr none (emptyDetails "W") ∧
    processParas (emptyDetails (emptyDetails "W").id) [some "FedRAMP Ready:    "]
      = processParas (emptyDetails (emptyDetails "W").id) [] :=
  c7_empty_after_trim (emptyDetails "W") "FedRAMP Ready:    " FieldLabel.fr
    (by decide) (by decide)

/-- Claim C10: matches overwrite the field unconditionally, so the last
paragraph whose first matching label is l determines the stored value of
the field of l, whatever earlier paragraphs stored; concretely, after
"FedRAMP Ready: In Process" a later "FedRAMP Ready:   " (empty after trim)
resets the field to absent, while the earlier paragraph alone had stored
some "In Process". -/
theorem c10_last_match_wins :
    (∀ (d : AuthorizationDetails) (l : FieldLabel)
       (ps qs : List (Option String)) (t : String),
      firstMatch t = some l →
      (∀ s, some s ∈ qs → firstMatch s ≠ some l) →
      getField l (processParas d (ps ++ some t :: qs))
        = extract_value t (labelText l)) ∧
    getField FieldLabel.fr (processParas (emptyDetails "P")
      [some "FedRAMP Ready: In Process", some "FedRAMP Ready:   "]) = none ∧
    getField FieldLabel.fr (processParas (emptyDetails "P")
      [some "FedRAMP Ready: In Process"]) = some "In Process" := by
  refine ⟨?_, by decide, by decide⟩
  intro d l ps qs t h1 h2
  rw [show ps ++ some t :: qs = (ps ++ [some t]) ++ qs by simp]
  rw [processParas_append]
  rw [getField_processParas_no_match l qs _ h2]
  rw [processParas_append]
  have hone : processParas (processParas d ps) [some t]
      = applyParagraph (processParas d ps) t := rfl
  rw [hone, applyParagraph_firstMatch, h1]
  exact getField_setField_same l _ _

/-- Claim C10 witness: the field FedRAMP Ready after the page
["FedRAMP Ready: In Process", "FedRAMP Ready:   ", "Annual Assessment: 2024"]
is the value extracted from the last FedRAMP Ready paragraph. -/
theorem c10_witness :
    getField FieldLabel.fr (processParas (emptyDetails "P")
        [some "FedRAMP Ready: In Process", some "FedRAMP Ready:   ",
         some "Annual Assessment: 2024"])
      = extract_value "FedRAMP Ready:   " (labelText FieldLabel.fr) :=
  c10_last_match_wins.1 (emptyDetails "P") FieldLabel.fr
    [some "FedRAMP Ready: In Process"] [some "Annual Assessment: 2024"]
    "FedRAMP Ready:   " (by decide)
    (by intro s hs; simp at hs; subst hs; decide)

/-- Claim C1 counterexample: with identifier "A" failing at the forced
post-navigation reload and identifier "B" loading a page that would scrape
successfully, the run writes NO data rows at all and stops: the reload
failure of "A" is not converted into an error placeholder row, and it costs
"B" its row — contradicting the claim for the reload failure case. -/
theorem c1_counterexample :
    (processIds [("A", Outcome.refreshFailed),
      ("B", Outcome.loaded (PageState.container [some "FedRAMP Ready: Yes"]))]).1
      = [] ∧
    (processIds [("A", Outcome.refreshFailed),
      ("B", Outcome.loaded (PageState.container [some "FedRAMP Ready: Yes"]))]).1.length
      ≠ 2 := by
  decide

/-- Claim C1 amended: navigation failures, a missing Authorization Details
container, empty paragraph lists and other extraction errors are each
caught at the per-identifier boundary and become that identifier's own
error placeholder row, with every row a function of its own identifier and
outcome alone; but a failure of the forced post-navigation reload is NOT
recoverable — it aborts the whole loop — so the guarantee holds exactly for
runs in which no reload fails. -/
theorem c1_amended (inputs : List (String × Outcome))
    (h : ∀ p ∈ inputs, p.2 ≠ Outcome.refreshFailed) :
    (processIds inputs).1 = inputs.map (fun p => rowFor p.1 p.2) ∧
    (processIds inputs).2 = true := by
  rw [processIds_no_refresh inputs h]
  exact ⟨rfl, rfl⟩

/-- Claim C1 witness: a run over a navigation failure, a missing container,
a container without paragraphs and a successful page. -/
theorem c1_witness :
    (processIds [("A", Outcome.navFailed),
      ("B", Outcome.loaded PageState.noContainer),
      ("C", Outcome.loaded (PageState.container [])),
      ("D", Outcome.loaded (PageState.container [some "PMO Review: Done"]))]).1 =
      [("A", Outcome.navFailed),
       ("B", Outcome.loaded PageState.noContainer),
       ("C", Outcome.loaded (PageState.container [])),
       ("D", Outcome.loaded (PageState.container [some "PMO Review: Done"]))].map
        (fun p => rowFor p.1 p.2) ∧
    (processIds [("A", Outcome.navFailed),
      ("B", Outcome.loaded PageState.noContainer),
      ("C", Outcome.loaded (PageState.container [])),
      ("D", Outcome.loaded (PageState.container [some "PMO Review: Done"]))]).2 = true :=
  c1_amended _ (by decide)

/-- Claim C4: in a run the loop completed (no reload abort), exactly one
data row is written per identifier of the loaded sequence, in input order:
the row count equals the identifier count, data row i is the row of input
pair i, and data row i starts with identifier i. -/
theorem c4_row_per_identifier (inputs : List (String × Outcome)) (i : Nat)
    (h : (processIds inputs).2 = true) :
    (processIds inputs).1.length = inputs.length ∧
    (processIds inputs).1.get? i = (inputs.get? i).map (fun p => rowFor p.1 p.2) ∧
    ((processIds inputs).1.get? i).map List.head?
      = (inputs.get? i).map (fun p => some p.1) := by
  have hnr : ∀ p ∈ inputs, p.2 ≠ Outcome.refreshFailed :=
    (processIds_completed_iff inputs).mp h
  rw [processIds_no_refresh inputs hnr]
  refine ⟨by simp, by simp, ?_⟩
  match hg : inputs.get? i with
  | none =>
    rw [List.get?_map, hg]
    simp
  | some p =>
    have hp : p ∈ inputs := List.get?_mem hg
    rw [List.get?_map, hg]
    rw [show Option.map (fun p => rowFor p.1 p.2) (some p) = some (rowFor p.1 p.2) from rfl]
    rw [show Option.map List.head? (some (rowFor p.1 p.2))
        = some (rowFor p.1 p.2).head? from rfl]
    rw [rowFor_head p.1 p.2 (hnr p hp)]
    rfl

/-- Claim C4 witness: a completed two-identifier run, checked at index 1. -/
theorem c4_witness :
    (processIds [("X", Outcome.navFailed),
      ("Y", Outcome.loaded (PageState.container [some "Annual Assessment: 2024"]))]).1.length
      = ([("X", Outcome.navFailed),
          ("Y", Outcome.loaded (PageState.container [some "Annual Assessment: 2024"]))] :
            List (String × Outcome)).length ∧
    (processIds [("X", Outcome.navFailed),
      ("Y", Outcome.loaded (PageState.container [some "Annual Assessment: 2024"]))]).1.get? 1
      = (([("X", Outcome.navFailed),
          ("Y", Outcome.loaded (PageState.container [some "Annual Assessment: 2024"]))] :
            List (String × Outcome)).get? 1).map (fun p => rowFor p.1 p.2) ∧
    ((processIds [("X", Outcome.navFailed),
      ("Y", Outcome.loaded (PageState.container [some "Annual Assessment: 2024"]))]).1.get? 1).map
        List.head?
      = (([("X", Outcome.navFailed),
          ("Y", Outcome.loaded (PageState.container [some "Annual Assessment: 2024"]))] :
            List (String × Outcome)).get? 1).map (fun p => some p.1) :=
  c4_row_per_identifier _ 1 (by decide)

/-- Claim C8 counterexample: in a run that got past startup in which the
single identifier "A" fails at the forced reload, the loop aborts and the
close-window call never happens: the session is left open, so it is not
true that any number of per-item failures still ends in exactly one close. -/
theorem c8_counterexample :
    (runTrace [("A", Outcome.refreshFailed)]).count Event.closed ≠ 1 ∧
    Event.closed ∉ runTrace [("A", Outcome.refreshFailed)] := by
  decide

/-- Claim C8 amended: when no identifier fails at the forced reload (any
number of navigation or extraction failures allowed), the browser session
is closed exactly once, and only after the whole identifier list has been
processed — the close is the final event of the run trace; a reload
failure instead aborts the run with the session never closed. -/
theorem c8_amended (inputs : List (String × Outcome))
    (h : ∀ p ∈ inputs, p.2 ≠ Outcome.refreshFailed) :
    (runTrace inputs).count Event.closed = 1 ∧
    (runTrace inputs).getLast? = some Event.closed := by
  have h2 : (processIds inputs).2 = true := (processIds_completed_iff inputs).mpr h
  unfold runTrace
  rw [h2]
  simp only [if_true]
  have hsplit : Event.header headerRow ::
      ((processIds inputs).1.map Event.row ++ [Event.closed])
      = (Event.header headerRow :: (processIds inputs).1.map Event.row)
          ++ [Event.closed] := rfl
  rw [hsplit]
  constructor
  · rw [List.count_append]
    have hz : (Event.header headerRow ::
        (processIds inputs).1.map Event.row).count Event.closed = 0 := by
      rw [List.count_eq_zero]
      intro hmem
      rcases List.mem_cons.mp hmem with hh | hh
      · exact Event.noConfusion hh
      · obtain ⟨r, _, hr⟩ := List.mem_map.mp hh
        exact Event.noConfusion hr
    rw [hz]
    rfl
  · exact List.getLast?_concat _

/-- Claim C8 witness: a completed run with one navigation failure and one
missing container. -/
theorem c8_witness :
    (runTrace [("E", Outcome.navFailed),
      ("F", Outcome.loaded PageState.noContainer)]).count Event.closed = 1 ∧
    (runTrace [("E", Outcome.navFailed),
      ("F", Outcome.loaded PageState.noContainer)]).getLast? = some Event.closed :=
  c8_amended _ (by decide)

/-- Claim C9: in every run past startup the header record is the first
event of the trace and the only header event; the header is exactly the
seven column names ID, FedRAMP Ready, Authorizing Entity Review, PMO
Review, FedRAMP Authorized, Annual Assessment, Independent Assessor; and
every data row written, success or error, has exactly seven columns. -/
theorem c9_header_once_seven_columns (inputs : List (String × Outcome)) :
    (runTrace inputs).head? = some (Event.header headerRow) ∧
    (runTrace inputs).filter isHeaderEv = [Event.header headerRow] ∧
    headerRow = ["ID", "FedRAMP Ready", "Authorizing Entity Review", "PMO Review",
      "FedRAMP Authorized", "Annual Assessment", "Independent Assessor"] ∧
    (∀ cols, Event.row cols ∈ runTrace inputs → cols.length = 7) := by
  refine ⟨rfl, ?_, rfl, ?_⟩
  · show (Event.header headerRow ::
        ((processIds inputs).1.map Event.row ++
          if (processIds inputs).2 then [Event.closed] else [])).filter isHeaderEv
      = [Event.header headerRow]
    rw [List.filter_cons_of_pos rfl]
    rw [List.filter_append]
    have h1 : ((processIds inputs).1.map Event.row).filter isHeaderEv = [] := by
      rw [List.filter_eq_nil_iff]
      intro e he
      obtain ⟨r, _, hr⟩ := List.mem_map.mp he
      subst hr
      simp [isHeaderEv]
    have h2 : (if (processIds inputs).2 then [Event.closed] else []).filter isHeaderEv
        = [] := by
      by_cases hc : (processIds inputs).2 <;> simp [hc, isHeaderEv]
    rw [h1, h2]
    rfl
  · intro cols hmem
    unfold runTrace at hmem
    rcases List.mem_cons.mp hmem with hh | hh
    · exact Event.noConfusion hh
    · rcases List.mem_append.mp hh with hr | hr
      · obtain ⟨r, hrmem, hre⟩ := List.mem_map.mp hr
        have hrc : r = cols := by injection hre
        subst hrc
        exact processIds_row_length inputs r hrmem
      · by_cases hc : (processIds inputs).2
        · rw [if_pos hc] at hr
          simp at hr
        · rw [if_neg hc] at hr
          simp at hr

/-- Claim C9 witness: run over a single navigation failure; its error row
has seven columns. -/
theorem c9_witness :
    (runTrace [("A", Outcome.navFailed)]).head? = some (Event.header headerRow) ∧
    (["A", "Error - Navigation failed", "", "", "", "", ""] : List String).length = 7 :=
  ⟨(c9_header_once_seven_columns [("A", Outcome.navFailed)]).1,
   (c9_header_once_seven_columns [("A", Outcome.navFailed)]).2.2.2
     ["A", "Error - Navigation failed", "", "", "", "", ""] (by decide)⟩
